import Mathlib

/-!
Verification of the multi-file find/replace component and the cross-pane
synchronization registry of a tabbed text editor.

Text is modelled as `List Char`, mirroring Python strings; a file's content
is split into lines on the newline character exactly as `str.split('\n')`
does.  The functions below are direct shallow embeddings of the methods of
`MultiFileFindDialog` in `src/multi_file_find.py`; names follow the source.
-/

namespace MultiFileFind

/-- Shorthand: the characters of a string literal. -/
def str (s : String) : List Char := s.toList

/-- Python `s.lower()` on the ASCII range, applied characterwise. -/
def lower (s : List Char) : List Char := s.map Char.toLower

/-- `occursAt s sub p` holds when `sub` occurs in `s` starting at index `p`
(Python `s[p:p+len(sub)] == sub`). -/
def occursAt (s sub : List Char) (p : Nat) : Bool :=
  decide ((s.drop p).take sub.length = sub)

/-- Scan for the first occurrence of `sub` at an index in
`[start, start+fuel)`, as Python `str.find` does from `start`. -/
def strFindAux (s sub : List Char) : Nat → Nat → Option Nat
  | _, 0 => none
  | start, fuel + 1 =>
    if occursAt s sub start then some start
    else strFindAux s sub (start + 1) fuel

/-- Python `s.find(sub, start)`: the least `p` with `start ≤ p ≤ len s` at
which `sub` occurs, `none` (Python `-1`) otherwise. -/
def strFind (s sub : List Char) (start : Nat) : Option Nat :=
  if start ≤ s.length then strFindAux s sub start (s.length + 1 - start)
  else none

/-- Python `text.split('\n')`: always at least one piece, one more piece
per newline character. -/
def splitNL : List Char → List (List Char)
  | [] => [[]]
  | c :: cs =>
    if c = '\n' then [] :: splitNL cs
    else
      match splitNL cs with
      | [] => [[c]]
      | l :: ls => (c :: l) :: ls

/-- Python `'\n'.join(lines)`. -/
def joinNL : List (List Char) → List Char
  | [] => []
  | [l] => l
  | l :: ls => l ++ '\n' :: joinNL ls

/-- Python `str.strip()`: remove leading and trailing whitespace. -/
def pystrip (l : List Char) : List Char :=
  ((l.dropWhile Char.isWhitespace).reverse.dropWhile Char.isWhitespace).reverse

/-- One search hit: `SearchResult` from `multi_file_find.py`. -/
structure SearchResult where
  file_path : List Char
  line_number : Nat
  line_text : List Char
  match_start : Nat
  match_end : Nat
deriving DecidableEq

/-- `MultiFileFindDialog._is_whole_word`: the neighbours of the match, when
they exist, are not alphanumeric. -/
def is_whole_word (text : List Char) (pos length : Nat) : Bool :=
  let before_ok := decide (pos = 0) || !(text.getD (pos - 1) ' ').isAlphanum
  let after_ok :=
    decide (pos + length ≥ text.length) || !(text.getD (pos + length) ' ').isAlphanum
  before_ok && after_ok

/-- The scanning loop of `_search_in_text` on one line: repeatedly `find`
the term from `start`, emit a `SearchResult` (unless whole-word filtering
rejects it), and resume from one past the match start.  `fuel` bounds the
iteration count; `line_to_search.length + 1` always suffices because
`start` strictly increases and `find` fails beyond the line length. -/
def searchLoop (ww : Bool) (fp : List Char) (num : Nat)
    (line_text line_to_search search_term : List Char) :
    Nat → Nat → List SearchResult
  | _, 0 => []
  | start, fuel + 1 =>
    match strFind line_to_search search_term start with
    | none => []
    | some pos =>
      if ww && !is_whole_word line_to_search pos search_term.length then
        searchLoop ww fp num line_text line_to_search search_term (pos + 1) fuel
      else
        { file_path := fp, line_number := num, line_text := pystrip line_text,
          match_start := pos, match_end := pos + search_term.length } ::
          searchLoop ww fp num line_text line_to_search search_term (pos + 1) fuel

/-- The per-line body of `_search_in_text`: lower-case the line and the
needle unless case-sensitive, then scan from offset 0. -/
def searchLine (cs ww : Bool) (fp : List Char) (num : Nat)
    (line_text search_text : List Char) : List SearchResult :=
  let line_to_search := if cs then line_text else lower line_text
  let search_term := if cs then search_text else lower search_text
  searchLoop ww fp num line_text line_to_search search_term 0
    (line_to_search.length + 1)

/-- The line loop of `_search_in_text`, numbering lines from `num`. -/
def searchLines (cs ww : Bool) (fp search_text : List Char) :
    Nat → List (List Char) → List SearchResult
  | _, [] => []
  | num, l :: ls =>
    searchLine cs ww fp num l search_text ++
      searchLines cs ww fp search_text (num + 1) ls

/-- `MultiFileFindDialog._search_in_text`: split on newlines and scan each
line, numbering lines from 1. -/
def search_in_text (cs ww : Bool) (text search_text fp : List Char) :
    List SearchResult :=
  searchLines cs ww fp search_text 1 (splitNL text)

/-- The sort key of `_replace_in_text`: `(line_number, match_start)` in
ascending lexicographic order. -/
def resLE (a b : SearchResult) : Prop :=
  a.line_number < b.line_number ∨
    (a.line_number = b.line_number ∧ a.match_start ≤ b.match_start)

instance : DecidableRel resLE := fun a b => by
  unfold resLE; infer_instance

instance : IsTotal SearchResult resLE :=
  ⟨fun a b => by unfold resLE; omega⟩

instance : IsTrans SearchResult resLE :=
  ⟨fun a b c hab hbc => by unfold resLE at *; omega⟩

/-- Python `sorted(results, key=lambda r: (r.line_number, r.match_start))`:
a stable sort on the `(line_number, match_start)` key. -/
def sortResults (results : List SearchResult) : List SearchResult :=
  List.insertionSort resLE results

/-- The body of the result loop in `_replace_in_text`: re-find the term on
the recorded line starting from the recorded offset (under the current
case-sensitivity mode) and splice in the replacement only when the find
lands exactly on the recorded offset; otherwise leave the lines unchanged.
The `0 < line_number` guard mirrors Python's `0 <= line_idx` on
`line_idx = line_number - 1`. -/
def replaceOne (cs : Bool) (search_text replacement : List Char)
    (lines : List (List Char)) (result : SearchResult) : List (List Char) :=
  if 0 < result.line_number ∧ result.line_number - 1 < lines.length then
    let line_idx := result.line_number - 1
    let line := lines.getD line_idx []
    let pos? :=
      if cs then strFind line search_text result.match_start
      else strFind (lower line) (lower search_text) result.match_start
    match pos? with
    | some pos =>
      if pos = result.match_start then
        lines.set line_idx
          (line.take pos ++ replacement ++ line.drop (pos + search_text.length))
      else lines
    | none => lines
  else lines

/-- `MultiFileFindDialog._replace_in_text`: split into lines, process the
selected results in `(line_number, match_start)` order, join back. -/
def replace_in_text (cs : Bool) (text : List Char)
    (results : List SearchResult) (search_text replacement : List Char) :
    List Char :=
  joinNL ((sortResults results).foldl (replaceOne cs search_text replacement)
    (splitNL text))

/-- A file on disk, as `_perform_replacements` can observe it: `good` means
both the read and the write succeed, `bad` means the attempted read or
write raises `OSError`/`IOError`. -/
inductive DiskEntry where
  | good (text : List Char)
  | bad
deriving DecidableEq

/-- Association-list lookup of the first binding of a key. -/
def alookup {α : Type} : List (List Char × α) → List Char → Option α
  | [], _ => none
  | (k, v) :: rest, key => if k = key then some v else alookup rest key

/-- Association-list update of the first binding of a key (no insertion). -/
def aupdate {α : Type} : List (List Char × α) → List Char → α →
    List (List Char × α)
  | [], _, _ => []
  | (k, v) :: rest, key, val =>
    if k = key then (k, val) :: rest else (k, v) :: aupdate rest key val

/-- The state `_perform_replacements` acts on: open editors (path to
current text, the first binding being the editor `_find_editor_for_file`
returns), the disk, and the running replacement count. -/
structure RState where
  editors : List (List Char × List Char)
  disk : List (List Char × DiskEntry)
  count : Nat
deriving DecidableEq

/-- The per-file body of `_perform_replacements`: rewrite an open editor's
text in place, else rewrite the file on disk; `bad` files report a warning
and are skipped, as are paths that do not exist; the count grows by the
number of that file's selected results whenever the rewrite happened. -/
def performOne (cs : Bool) (search_text replacement : List Char)
    (st : RState) (entry : List Char × List SearchResult) : RState :=
  let (fp, results) := entry
  match alookup st.editors fp with
  | some text =>
    { st with
      editors := aupdate st.editors fp
        (replace_in_text cs text results search_text replacement),
      count := st.count + results.length }
  | none =>
    match alookup st.disk fp with
    | some (DiskEntry.good text) =>
      { st with
        disk := aupdate st.disk fp
          (DiskEntry.good (replace_in_text cs text results search_text replacement)),
        count := st.count + results.length }
    | some DiskEntry.bad => st
    | none => st

/-- `MultiFileFindDialog._perform_replacements`: iterate the
path-to-selected-results mapping in order, threading editor, disk and
count state. -/
def perform_replacements (cs : Bool) (search_text replacement : List Char)
    (files_results : List (List Char × List SearchResult)) (st : RState) :
    RState :=
  files_results.foldl (performOne cs search_text replacement) st

/-- The status label text set by `replace_selected` / `replace_all` from
the count `_perform_replacements` returns. -/
def replacedMessage (count : Nat) : List Char :=
  str "Replaced " ++ (Nat.repr count).toList ++ str " occurrence" ++
    (if count ≠ 1 then str "s" else [])

/-- The dialog state `find_all` reads and writes: the flat result list, the
per-file result mapping (insertion order), and the status label. -/
structure FindState where
  results : List SearchResult
  file_results : List (List Char × List SearchResult)
  status : List Char
deriving DecidableEq

/-- Status message for a successful `find_all`, with Python's
pluralization. -/
def foundMessage (total nfiles : Nat) : List Char :=
  str "Found " ++ (Nat.repr total).toList ++ str " match" ++
    (if total ≠ 1 then str "es" else []) ++ str " in " ++
    (Nat.repr nfiles).toList ++ str " file" ++
    (if nfiles ≠ 1 then str "s" else [])

/-- The file loop of `find_all`: accumulate every match into `results`,
record only files with matches in `file_results`, and count matches. -/
def findAllStep (cs ww : Bool) (search_text : List Char)
    (acc : FindState × Nat) (file : List Char × List Char) : FindState × Nat :=
  let ms := search_in_text cs ww file.2 search_text file.1
  (⟨acc.1.results ++ ms,
    if ms = [] then acc.1.file_results
    else acc.1.file_results ++ [(file.1, ms)],
    acc.1.status⟩,
   acc.2 + ms.length)

/-- `MultiFileFindDialog.find_all`: reject an empty search term before
touching any state; otherwise clear the held results, reject an empty file
set, and otherwise scan every file and set the summary status. -/
def find_all (cs ww : Bool) (search_text : List Char)
    (files : List (List Char × List Char)) (st : FindState) : FindState :=
  if search_text = [] then { st with status := str "Please enter search text" }
  else
    let cleared : FindState := ⟨[], [], st.status⟩
    if files = [] then { cleared with status := str "No files to search" }
    else
      let scanned := files.foldl (findAllStep cs ww search_text) (cleared, 0)
      if 0 < scanned.2 then
        { scanned.1 with
          status := foundMessage scanned.2 scanned.1.file_results.length }
      else { scanned.1 with status := str "No matches found" }

/-- The line actually scanned for a line of text: the line itself in
case-sensitive mode, its lower-casing otherwise. -/
def scanOf (cs : Bool) (line : List Char) : List Char :=
  if cs then line else lower line

/-- The term actually scanned for: the needle itself in case-sensitive
mode, its lower-casing otherwise. -/
def termOf (cs : Bool) (search_text : List Char) : List Char :=
  if cs then search_text else lower search_text

/-- The scanned form of line `n` (1-based) of `text`. -/
def scanned_line (cs : Bool) (text : List Char) (n : Nat) : List Char :=
  scanOf cs ((splitNL text).getD (n - 1) [])

/-- The position data of a search result, without the displayed
`line_text`. -/
def projResult (r : SearchResult) : Nat × Nat × Nat :=
  (r.line_number, r.match_start, r.match_end)

/-- A target file is processable when an editor displays it or its disk
entry can be read and written; `_perform_replacements` adds the full
selected-result count of exactly these files. -/
def processable (st : RState) (fp : List Char) : Bool :=
  (alookup st.editors fp).isSome ||
    (match alookup st.disk fp with
     | some (DiskEntry.good _) => true
     | _ => false)

/-- Total number of selected results over the processable files of a
mapping. -/
def countedResults (st : RState)
    (files : List (List Char × List SearchResult)) : Nat :=
  (files.map (fun e => if processable st e.1 then e.2.length else 0)).sum

end MultiFileFind

namespace SplitSync

/-- Modelled from the spec: the repository's split-container module (the
cross-pane sync registry of spec section 4.3) is not among the source
files, only its tests are, so its state is modelled from the spec's words.
`groups` maps a file path to the sync group of editor ids currently
displaying it; `texts` maps an editor id to its current full text. -/
structure SyncRegistry where
  groups : List Char → List Nat
  texts : Nat → List Char

/-- Modelled from the spec: set one editor's text, touching no other
editor. -/
def setText (reg : SyncRegistry) (editor : Nat) (t : List Char) :
    SyncRegistry :=
  { reg with texts := fun e => if e = editor then t else reg.texts e }

/-- Modelled from the spec: propagation after an edit by `source` on the
group of `path` — a group of size below two is inert; otherwise the full
current text of the source editor is pushed into every other member of the
group, the source itself being excluded from its own replay. -/
def replay_edit (reg : SyncRegistry) (path : List Char) (source : Nat) :
    SyncRegistry :=
  let group := reg.groups path
  if group.length < 2 then reg
  else
    { reg with
      texts := fun e =>
        if e ∈ group ∧ e ≠ source then reg.texts source else reg.texts e }

/-- Modelled from the spec: a content-changing edit committed on `source`,
setting its text to `t`, followed by the synchronous replay into the other
members of its sync group. -/
def commit_edit (reg : SyncRegistry) (path : List Char) (source : Nat)
    (t : List Char) : SyncRegistry :=
  replay_edit (setText reg source t) path source

end SplitSync

/-! ## Theorems -/

namespace MultiFileFind

theorem strFindAux_some {s sub : List Char} :
    ∀ {start fuel p : Nat}, strFindAux s sub start fuel = some p →
      start ≤ p ∧ p < start + fuel ∧ occursAt s sub p = true := by
  intro start fuel
  induction fuel generalizing start with
  | zero => intro p h; simp [strFindAux] at h
  | succ n ih =>
    intro p h
    by_cases hocc : occursAt s sub start = true
    · simp [strFindAux, hocc] at h
      subst h
      exact ⟨Nat.le_refl _, Nat.lt_add_of_pos_right (Nat.succ_pos n), hocc⟩
    · simp [strFindAux, hocc] at h
      obtain ⟨h1, h2, h3⟩ := ih h
      exact ⟨Nat.le_of_succ_le h1, by omega, h3⟩

theorem strFind_some {s sub : List Char} {start p : Nat}
    (h : strFind s sub start = some p) :
    start ≤ p ∧ p ≤ s.length ∧ occursAt s sub p = true := by
  unfold strFind at h
  by_cases hs : start ≤ s.length
  · simp [hs] at h
    obtain ⟨h1, h2, h3⟩ := strFindAux_some h
    exact ⟨h1, by omega, h3⟩
  · simp [hs] at h

theorem strFindAux_at_occurs {s sub : List Char} {start fuel : Nat}
    (hocc : occursAt s sub start = true) (hf : 0 < fuel) :
    strFindAux s sub start fuel = some start := by
  cases fuel with
  | zero => omega
  | succ n => simp [strFindAux, hocc]

/-- `find` from `start` returns exactly `start` when the needle occurs
there. -/
theorem strFind_at_occurs {s sub : List Char} {start : Nat}
    (hle : start ≤ s.length) (hocc : occursAt s sub start = true) :
    strFind s sub start = some start := by
  unfold strFind
  simp [hle]
  exact strFindAux_at_occurs hocc (by omega)

/-- `find` from `start` returns `start` iff the needle occurs at `start`
(within bounds): the re-validation test in `_replace_in_text` succeeds
exactly at a genuine occurrence at the recorded offset. -/
theorem strFind_eq_start_iff {s sub : List Char} {start : Nat} :
    strFind s sub start = some start ↔
      start ≤ s.length ∧ occursAt s sub start = true := by
  constructor
  · intro h
    obtain ⟨_, h2, h3⟩ := strFind_some h
    exact ⟨h2, h3⟩
  · intro ⟨h1, h2⟩
    exact strFind_at_occurs h1 h2

theorem splitNL_ne_nil : ∀ t : List Char, splitNL t ≠ [] := by
  intro t
  induction t with
  | nil => simp [splitNL]
  | cons c cs ih =>
    by_cases h : c = '\n'
    · simp [splitNL, h]
    · simp only [splitNL, if_neg h]
      cases hs : splitNL cs with
      | nil => simp
      | cons l ls => simp

/-- Joining the pieces of a split restores the original text. -/
theorem joinNL_splitNL (t : List Char) : joinNL (splitNL t) = t := by
  induction t with
  | nil => simp [splitNL, joinNL]
  | cons c cs ih =>
    by_cases h : c = '\n'
    · subst h
      simp only [splitNL, if_pos rfl]
      cases hs : splitNL cs with
      | nil => exact absurd hs (splitNL_ne_nil cs)
      | cons l ls =>
        rw [hs] at ih
        simp [joinNL, ih]
    · simp only [splitNL, if_neg h]
      cases hs : splitNL cs with
      | nil => exact absurd hs (splitNL_ne_nil cs)
      | cons l ls =>
        rw [hs] at ih
        cases ls with
        | nil => simp_all [joinNL]
        | cons l2 ls2 => simp_all [joinNL]

/-- Each piece produced by the split is newline-free. -/
theorem splitNL_no_newline :
    ∀ (t : List Char), ∀ l ∈ splitNL t, '\n' ∉ l := by
  intro t
  induction t with
  | nil => simp [splitNL]
  | cons c cs ih =>
    by_cases h : c = '\n'
    · simp only [splitNL, if_pos h]
      intro l hl
      rcases List.mem_cons.mp hl with h1 | h1
      · subst h1; simp
      · exact ih l h1
    · simp only [splitNL, if_neg h]
      cases hs : splitNL cs with
      | nil => exact absurd hs (splitNL_ne_nil cs)
      | cons p ps =>
        intro l hl
        rcases List.mem_cons.mp hl with h1 | h1
        · subst h1
          intro hmem
          rcases List.mem_cons.mp hmem with h2 | h2
          · exact h h2.symm
          · exact ih p (by rw [hs]; exact List.mem_cons_self _ _) h2
        · exact ih l (by rw [hs]; exact List.mem_cons_of_mem _ h1)

theorem splitNL_of_no_newline :
    ∀ (l : List Char), '\n' ∉ l → splitNL l = [l] := by
  intro l
  induction l with
  | nil => intro; simp [splitNL]
  | cons c cs ihc =>
    intro hl
    have hc : c ≠ '\n' := fun hh => hl (hh ▸ List.mem_cons_self _ _)
    have hcs : '\n' ∉ cs := fun hh => hl (List.mem_cons_of_mem _ hh)
    simp only [splitNL, if_neg hc, ihc hcs]

theorem splitNL_append_newline :
    ∀ (l t : List Char), '\n' ∉ l →
      splitNL (l ++ '\n' :: t) = l :: splitNL t := by
  intro l t
  induction l with
  | nil => intro; simp [splitNL]
  | cons c cs ihc =>
    intro hl
    have hc : c ≠ '\n' := fun hh => hl (hh ▸ List.mem_cons_self _ _)
    have hcs : '\n' ∉ cs := fun hh => hl (List.mem_cons_of_mem _ hh)
    simp only [List.cons_append, splitNL, if_neg hc]
    rw [List.append_eq, ihc hcs]

/-- Splitting the join of newline-free pieces recovers the pieces. -/
theorem splitNL_joinNL :
    ∀ (ls : List (List Char)), ls ≠ [] → (∀ l ∈ ls, '\n' ∉ l) →
      splitNL (joinNL ls) = ls := by
  intro ls
  induction ls with
  | nil => intro h; exact absurd rfl h
  | cons l rest ih =>
    intro _ hnl
    cases rest with
    | nil =>
      simp only [joinNL]
      exact splitNL_of_no_newline l (hnl l (List.mem_cons_self _ _))
    | cons l2 rest2 =>
      have hjoin : joinNL (l :: l2 :: rest2) = l ++ '\n' :: joinNL (l2 :: rest2) := rfl
      rw [hjoin, splitNL_append_newline l _ (hnl l (List.mem_cons_self _ _)),
        ih (by simp) (fun x hx => hnl x (List.mem_cons_of_mem _ hx))]

/-- Every result the scanning loop emits records the line number it was
given, an in-bounds match offset, a genuine occurrence of the scanned term
at that offset, and the matching end offset. -/
theorem searchLoop_mem {ww : Bool} {fp : List Char} {num : Nat}
    {lt lts term : List Char} :
    ∀ {fuel start : Nat} {r : SearchResult},
      r ∈ searchLoop ww fp num lt lts term start fuel →
      r.line_number = num ∧ r.match_start ≤ lts.length ∧
        occursAt lts term r.match_start = true ∧
        r.match_end = r.match_start + term.length := by
  intro fuel
  induction fuel with
  | zero => intro start r h; simp [searchLoop] at h
  | succ n ih =>
    intro start r h
    simp only [searchLoop] at h
    cases hf : strFind lts term start with
    | none => simp only [hf] at h; simp at h
    | some pos =>
      simp only [hf] at h
      obtain ⟨hsp, hsl, hocc⟩ := strFind_some hf
      by_cases hw : (ww && !is_whole_word lts pos term.length) = true
      · simp only [if_pos hw] at h
        exact ih h
      · simp only [if_neg hw] at h
        rcases List.mem_cons.mp h with h1 | h1
        · subst h1
          exact ⟨rfl, hsl, hocc, rfl⟩
        · exact ih h1

/-- Lifting `searchLoop_mem` through the line loop: a result's line number
locates the line it came from, and the occurrence facts hold on the
scanned form of that line. -/
theorem searchLines_mem {cs ww : Bool} {fp st : List Char} :
    ∀ {ls : List (List Char)} {num : Nat} {r : SearchResult},
      r ∈ searchLines cs ww fp st num ls →
      num ≤ r.line_number ∧ r.line_number < num + ls.length ∧
        r.match_start ≤ (scanOf cs (ls.getD (r.line_number - num) [])).length ∧
        occursAt (scanOf cs (ls.getD (r.line_number - num) []))
          (termOf cs st) r.match_start = true ∧
        r.match_end = r.match_start + (termOf cs st).length := by
  intro ls
  induction ls with
  | nil => intro num r h; simp [searchLines] at h
  | cons l rest ih =>
    intro num r h
    rcases List.mem_append.mp h with h1 | h1
    · obtain ⟨hn, hsl, hocc, hend⟩ := searchLoop_mem h1
      subst hn
      refine ⟨Nat.le_refl _, by simp, ?_, ?_, ?_⟩
      · simpa [scanOf, termOf] using hsl
      · simpa [scanOf, termOf] using hocc
      · simpa [scanOf, termOf] using hend
    · obtain ⟨hge, hlt, hsl, hocc, hend⟩ := ih h1
      have hidx : r.line_number - num = (r.line_number - (num + 1)) + 1 := by omega
      refine ⟨by omega, by simp at hlt ⊢; omega, ?_, ?_, hend⟩
      · rw [hidx, List.getD_cons_succ]; exact hsl
      · rw [hidx, List.getD_cons_succ]; exact hocc

/-- Splicing a genuine occurrence of `sub` back over itself reproduces the
line. -/
theorem splice_occurs {line sub : List Char} {p : Nat}
    (h : occursAt line sub p = true) :
    line.take p ++ sub ++ line.drop (p + sub.length) = line := by
  have hsub : (line.drop p).take sub.length = sub := of_decide_eq_true h
  calc line.take p ++ sub ++ line.drop (p + sub.length)
      = line.take p ++
          ((line.drop p).take sub.length ++ (line.drop p).drop sub.length) := by
        rw [List.append_assoc]
        congr 1
        congr 1
        · exact hsub.symm
        · exact (List.drop_drop sub.length p line).symm
    _ = line.take p ++ line.drop p := by rw [List.take_append_drop]
    _ = line := List.take_append_drop p line

theorem set_getD_eq_self {α : Type} :
    ∀ (l : List α) (i : Nat) (d : α), i < l.length →
      l.set i (l.getD i d) = l := by
  intro l
  induction l with
  | nil => intro i d h; simp at h
  | cons a rest ih =>
    intro i d h
    cases i with
    | zero => rfl
    | succ j =>
      have hstep : (a :: rest).set (j + 1) ((a :: rest).getD (j + 1) d) =
          a :: rest.set j (rest.getD j d) := rfl
      rw [hstep, ih j d (by simpa using h)]

theorem foldl_fixed {α β : Type} {f : β → α → β} {acc : β} :
    ∀ {l : List α}, (∀ x ∈ l, f acc x = acc) → l.foldl f acc = acc := by
  intro l
  induction l with
  | nil => intro; rfl
  | cons x rest ih =>
    intro h
    rw [List.foldl_cons, h x (List.mem_cons_self _ _)]
    exact ih (fun y hy => h y (List.mem_cons_of_mem _ hy))

/-- In case-sensitive mode, replacing a genuine occurrence of the search
term by the search term itself leaves the line list unchanged. -/
theorem replaceOne_self {st : List Char} {lines : List (List Char)}
    {r : SearchResult} (h1 : 0 < r.line_number)
    (h2 : r.line_number - 1 < lines.length)
    (h3 : r.match_start ≤ (lines.getD (r.line_number - 1) []).length)
    (h4 : occursAt (lines.getD (r.line_number - 1) []) st r.match_start = true) :
    replaceOne true st st lines r = lines := by
  unfold replaceOne
  rw [if_pos ⟨h1, h2⟩]
  simp only [if_pos rfl]
  rw [strFind_at_occurs h3 h4]
  have hsp := splice_occurs h4
  rw [List.append_assoc] at hsp
  simp [← List.getD_eq_getElem?_getD, hsp,
    set_getD_eq_self lines (r.line_number - 1) [] h2]

/-- C3 (counterexample): under the dialog's default case-insensitive mode
the round trip is not the identity.  The needle is literally present in
the text, yet replacing every search result with the needle itself
changes the text, because the case-insensitive scan also matched the
differently-cased occurrence and rewrote it to the needle's spelling. -/
theorem C3_counterexample_case_insensitive :
    occursAt (str "Hello hello") (str "hello") 6 = true ∧
    replace_in_text false (str "Hello hello")
      (search_in_text false false (str "Hello hello") (str "hello") (str "f"))
      (str "hello") (str "hello") ≠ str "Hello hello" := by decide

/-- C3 (amended): in case-sensitive mode, for every text and needle,
searching and then replacing every result with the needle itself
reproduces the text exactly (whether or not whole-word filtering is on,
and also when the needle does not occur). -/
theorem C3_roundtrip_case_sensitive (text search_text fp : List Char)
    (ww : Bool) :
    replace_in_text true text
      (search_in_text true ww text search_text fp)
      search_text search_text = text := by
  unfold replace_in_text
  have hperm : (sortResults (search_in_text true ww text search_text fp)).Perm
      (search_in_text true ww text search_text fp) :=
    List.perm_insertionSort resLE _
  have hall : ∀ x ∈ sortResults (search_in_text true ww text search_text fp),
      replaceOne true search_text search_text (splitNL text) x = splitNL text := by
    intro r hr
    have hr' : r ∈ searchLines true ww fp search_text 1 (splitNL text) :=
      hperm.mem_iff.mp hr
    obtain ⟨hge, hlt, hsl, hocc, _⟩ := searchLines_mem hr'
    simp only [scanOf, termOf, if_pos rfl] at hsl hocc
    exact replaceOne_self (by omega) (by omega) hsl hocc
  rw [foldl_fixed hall, joinNL_splitNL]

theorem lower_length (s : List Char) : (lower s).length = s.length := by
  simp [lower]

theorem termOf_length (cs : Bool) (s : List Char) :
    (termOf cs s).length = s.length := by
  cases cs <;> simp [termOf, lower]

/-- Unfolding `searchLine` to the loop over the scanned line and term. -/
theorem searchLine_eq (cs ww : Bool) (fp : List Char) (num : Nat)
    (line st : List Char) :
    searchLine cs ww fp num line st =
      searchLoop ww fp num line (scanOf cs line) (termOf cs st) 0
        ((scanOf cs line).length + 1) := rfl

/-- With whole-word enabled the loop emits exactly the non-whole-word
run's results filtered by `is_whole_word` on the scanned line. -/
theorem searchLoop_ww_filter {fp : List Char} {num : Nat}
    {lt lts term : List Char} :
    ∀ (fuel start : Nat),
      searchLoop true fp num lt lts term start fuel =
        (searchLoop false fp num lt lts term start fuel).filter
          (fun r => is_whole_word lts r.match_start term.length) := by
  intro fuel
  induction fuel with
  | zero => intro start; rfl
  | succ n ih =>
    intro start
    simp only [searchLoop]
    cases hf : strFind lts term start with
    | none => rfl
    | some pos =>
      by_cases hw : is_whole_word lts pos term.length = true
      · simp [hw, ih (pos + 1)]
      · simp [hw, ih (pos + 1)]

/-- Lifting the filter characterization through the line loop. -/
theorem searchLines_ww_filter {cs : Bool} {fp st : List Char} :
    ∀ (ls : List (List Char)) (num : Nat),
      searchLines cs true fp st num ls =
        (searchLines cs false fp st num ls).filter
          (fun r => is_whole_word (scanOf cs (ls.getD (r.line_number - num) []))
            r.match_start (termOf cs st).length) := by
  intro ls
  induction ls with
  | nil => intro num; rfl
  | cons l rest ih =>
    intro num
    show searchLine cs true fp num l st ++
        searchLines cs true fp st (num + 1) rest = _
    have hrhs : searchLines cs false fp st num (l :: rest) =
        searchLine cs false fp num l st ++
          searchLines cs false fp st (num + 1) rest := rfl
    rw [hrhs, List.filter_append]
    have hline : searchLine cs true fp num l st =
        (searchLine cs false fp num l st).filter
          (fun r => is_whole_word (scanOf cs ((l :: rest).getD
            (r.line_number - num) [])) r.match_start (termOf cs st).length) := by
      rw [searchLine_eq cs true, searchLine_eq cs false,
        searchLoop_ww_filter ((scanOf cs l).length + 1) 0]
      refine (List.filter_congr ?_).symm
      intro r hr
      have hn : r.line_number = num := (searchLoop_mem hr).1
      simp [hn]
    have hrest : searchLines cs true fp st (num + 1) rest =
        (searchLines cs false fp st (num + 1) rest).filter
          (fun r => is_whole_word (scanOf cs ((l :: rest).getD
            (r.line_number - num) [])) r.match_start (termOf cs st).length) := by
      rw [ih (num + 1)]
      refine (List.filter_congr ?_).symm
      intro r hr
      have hge : num + 1 ≤ r.line_number := (searchLines_mem hr).1
      have hidx : r.line_number - num = (r.line_number - (num + 1)) + 1 := by
        omega
      simp [hidx]
    rw [hline, hrest]

/-- C4: with whole-word enabled, the reported matches are exactly the
matches of the plain scan whose position passes the whole-word rule
(neighbouring characters, when they exist, are not alphanumeric) on the
scanned line; in particular the spec's example yields 2 whole-word
results and 5 plain results. -/
theorem C4_whole_word_rule :
    (∀ (cs : Bool) (text search_text fp : List Char),
      search_in_text cs true text search_text fp =
        (search_in_text cs false text search_text fp).filter
          (fun r => is_whole_word (scanned_line cs text r.line_number)
            r.match_start search_text.length)) ∧
    (search_in_text false true (str "test testing tested\ntest\ntestable")
      (str "test") (str "f")).length = 2 ∧
    (search_in_text false false (str "test testing tested\ntest\ntestable")
      (str "test") (str "f")).length = 5 := by
  refine ⟨?_, by decide, by decide⟩
  intro cs text st fp
  show searchLines cs true fp st 1 (splitNL text) = _
  rw [searchLines_ww_filter (splitNL text) 1]
  congr 1
  funext r
  simp [scanned_line, termOf_length]

/-- The loop's emitted positions do not depend on the original (unscanned)
line, which only feeds the displayed `line_text`. -/
theorem searchLoop_proj {ww : Bool} {fp : List Char} {num : Nat}
    {lts term : List Char} (o1 o2 : List Char) :
    ∀ (fuel start : Nat),
      (searchLoop ww fp num o1 lts term start fuel).map projResult =
        (searchLoop ww fp num o2 lts term start fuel).map projResult := by
  intro fuel
  induction fuel with
  | zero => intro start; rfl
  | succ n ih =>
    intro start
    simp only [searchLoop]
    cases hf : strFind lts term start with
    | none => rfl
    | some pos =>
      by_cases hw : (ww && !is_whole_word lts pos term.length) = true
      · simp only [if_pos hw]
        exact ih (pos + 1)
      · simp only [if_neg hw, List.map_cons, projResult]
        rw [ih (pos + 1)]

/-- C5: a case-insensitive scan is the case-sensitive scan of the
lower-cased lines and lower-cased needle (identical up to the displayed
`line_text`, which keeps the original spelling); in particular the spec's
example yields exactly the position-6 match case-sensitively and all
three occurrences case-insensitively. -/
theorem C5_case_sensitivity :
    (∀ (ww : Bool) (fp st : List Char) (num : Nat) (ls : List (List Char)),
      (searchLines false ww fp st num ls).map projResult =
        (searchLines true ww fp (lower st) num (ls.map lower)).map projResult) ∧
    (search_in_text true false (str "Hello hello HELLO") (str "hello")
      (str "f")).map projResult = [(1, 6, 11)] ∧
    (search_in_text false false (str "Hello hello HELLO") (str "hello")
      (str "f")).map projResult = [(1, 0, 5), (1, 6, 11), (1, 12, 17)] := by
  refine ⟨?_, by decide, by decide⟩
  intro ww fp st num ls
  induction ls generalizing num with
  | nil => rfl
  | cons l rest ih =>
    have hhead : (searchLine false ww fp num l st).map projResult =
        (searchLine true ww fp num (lower l) (lower st)).map projResult := by
      show (searchLoop ww fp num l (lower l) (lower st) 0
          ((lower l).length + 1)).map projResult =
        (searchLoop ww fp num (lower l) (lower l) (lower st) 0
          ((lower l).length + 1)).map projResult
      exact searchLoop_proj l (lower l) _ 0
    simp only [List.map_cons, searchLines, List.map_append]
    rw [hhead, ih (num + 1)]

/-- Normal form of the result-loop body: re-find on the scanned line and
scanned term, splice on the original line only when the find lands on the
recorded offset. -/
theorem replaceOne_eq (cs : Bool) (s rep : List Char)
    (lines : List (List Char)) (r : SearchResult) :
    replaceOne cs s rep lines r =
      if 0 < r.line_number ∧ r.line_number - 1 < lines.length then
        match strFind (scanOf cs (lines.getD (r.line_number - 1) []))
            (termOf cs s) r.match_start with
        | some pos =>
          if pos = r.match_start then
            lines.set (r.line_number - 1)
              ((lines.getD (r.line_number - 1) []).take pos ++ rep ++
                (lines.getD (r.line_number - 1) []).drop (pos + s.length))
          else lines
        | none => lines
      else lines := by
  cases cs <;> rfl

/-- The loop body leaves the lines unchanged unless the scanned term
occurs at exactly the recorded offset of an in-range line. -/
theorem replaceOne_skip (cs : Bool) (s rep : List Char)
    (lines : List (List Char)) (r : SearchResult)
    (hcond : ¬ (0 < r.line_number ∧ r.line_number - 1 < lines.length ∧
      r.match_start ≤ (scanOf cs (lines.getD (r.line_number - 1) [])).length ∧
      occursAt (scanOf cs (lines.getD (r.line_number - 1) []))
        (termOf cs s) r.match_start = true)) :
    replaceOne cs s rep lines r = lines := by
  rw [replaceOne_eq]
  by_cases hg : 0 < r.line_number ∧ r.line_number - 1 < lines.length
  · rw [if_pos hg]
    cases hf : strFind (scanOf cs (lines.getD (r.line_number - 1) []))
        (termOf cs s) r.match_start with
    | none => rfl
    | some pos =>
      by_cases hp : pos = r.match_start
      · subst hp
        obtain ⟨hle, hocc⟩ := strFind_eq_start_iff.mp hf
        exact absurd ⟨hg.1, hg.2, hle, hocc⟩ hcond
      · exact if_neg hp
  · rw [if_neg hg]

/-- When the scanned term does occur at the recorded offset, the loop body
splices the replacement over the original line there. -/
theorem replaceOne_act (cs : Bool) (s rep : List Char)
    (lines : List (List Char)) (r : SearchResult)
    (hcond : 0 < r.line_number ∧ r.line_number - 1 < lines.length ∧
      r.match_start ≤ (scanOf cs (lines.getD (r.line_number - 1) [])).length ∧
      occursAt (scanOf cs (lines.getD (r.line_number - 1) []))
        (termOf cs s) r.match_start = true) :
    replaceOne cs s rep lines r =
      lines.set (r.line_number - 1)
        ((lines.getD (r.line_number - 1) []).take r.match_start ++ rep ++
          (lines.getD (r.line_number - 1) []).drop
            (r.match_start + s.length)) := by
  obtain ⟨hg1, hg2, hle, hocc⟩ := hcond
  rw [replaceOne_eq, if_pos ⟨hg1, hg2⟩, strFind_at_occurs hle hocc]
  exact if_pos rfl

/-- C6: per file, replacement folds over the selected results sorted
stably by `(line_number, match_start)` ascending (first conjunct: the
sorted list is a permutation of the selection and is sorted; second: the
function is that fold), and the body rewrites at the recorded offset
exactly when the scanned term occurs at that offset on the current scanned
line, silently leaving the lines unchanged otherwise (last two
conjuncts). -/
theorem C6_replacement_order_and_revalidation :
    (∀ rs : List SearchResult,
      (sortResults rs).Perm rs ∧ List.Sorted resLE (sortResults rs)) ∧
    (∀ (cs : Bool) (text : List Char) (rs : List SearchResult)
      (s rep : List Char),
      replace_in_text cs text rs s rep =
        joinNL ((sortResults rs).foldl (replaceOne cs s rep) (splitNL text))) ∧
    (∀ (cs : Bool) (s rep : List Char) (lines : List (List Char))
      (r : SearchResult),
      ¬ (0 < r.line_number ∧ r.line_number - 1 < lines.length ∧
          r.match_start ≤ (scanOf cs (lines.getD (r.line_number - 1) [])).length ∧
          occursAt (scanOf cs (lines.getD (r.line_number - 1) []))
            (termOf cs s) r.match_start = true) →
      replaceOne cs s rep lines r = lines) ∧
    (∀ (cs : Bool) (s rep : List Char) (lines : List (List Char))
      (r : SearchResult),
      (0 < r.line_number ∧ r.line_number - 1 < lines.length ∧
        r.match_start ≤ (scanOf cs (lines.getD (r.line_number - 1) [])).length ∧
        occursAt (scanOf cs (lines.getD (r.line_number - 1) []))
          (termOf cs s) r.match_start = true) →
      replaceOne cs s rep lines r =
        lines.set (r.line_number - 1)
          ((lines.getD (r.line_number - 1) []).take r.match_start ++ rep ++
            (lines.getD (r.line_number - 1) []).drop
              (r.match_start + s.length))) := by
  exact ⟨fun rs => ⟨List.perm_insertionSort resLE rs,
    List.sorted_insertionSort resLE rs⟩, fun _ _ _ _ _ => rfl,
    replaceOne_skip, replaceOne_act⟩

/-- Witness for C6: a result whose offset does not re-validate is skipped,
and one whose offset re-validates is spliced. -/
theorem C6_witness :
    replaceOne true (str "ab") (str "x") [str "cd"]
      ⟨str "f", 1, str "cd", 0, 2⟩ = [str "cd"] ∧
    replaceOne true (str "ab") (str "x") [str "abc"]
      ⟨str "f", 1, str "abc", 0, 2⟩ = [str "xc"] := by
  constructor
  · exact C6_replacement_order_and_revalidation.2.2.1 true (str "ab") (str "x")
      [str "cd"] ⟨str "f", 1, str "cd", 0, 2⟩ (by decide)
  · rw [C6_replacement_order_and_revalidation.2.2.2 true (str "ab") (str "x")
      [str "abc"] ⟨str "f", 1, str "abc", 0, 2⟩ (by decide)]
    decide

/-- C2 (counterexample): the spec's worked example does not match the
code.  Searching `"Hello World Hello Hello"` for `"Hello"` in the default
mode does find all 3 occurrences, but replacing them all with `"Hi"` does
not produce `"Hi World Hi Hi"`: the first replacement shortens the line,
so the re-validation of the two later recorded offsets fails and they are
silently skipped. -/
theorem C2_counterexample :
    (search_in_text false false (str "Hello World Hello Hello")
      (str "Hello") (str "f")).length = 3 ∧
    replace_in_text false (str "Hello World Hello Hello")
      (search_in_text false false (str "Hello World Hello Hello")
        (str "Hello") (str "f"))
      (str "Hello") (str "Hi") ≠ str "Hi World Hi Hi" := by decide

/-- C2 (amended): the search finds all 3 occurrences; replacing all of
them with `"Hi"` yields `"Hi World Hello Hello"` (only the first
occurrence is rewritten, the other two are skipped by offset
re-validation) while the returned count is still 3 and the reported
status says 3 replacements. -/
theorem C2_actual_result :
    (search_in_text false false (str "Hello World Hello Hello")
      (str "Hello") (str "f")).length = 3 ∧
    replace_in_text false (str "Hello World Hello Hello")
      (search_in_text false false (str "Hello World Hello Hello")
        (str "Hello") (str "f"))
      (str "Hello") (str "Hi") = str "Hi World Hello Hello" ∧
    (perform_replacements false (str "Hello") (str "Hi")
      [(str "f", search_in_text false false (str "Hello World Hello Hello")
        (str "Hello") (str "f"))]
      ⟨[(str "f", str "Hello World Hello Hello")], [], 0⟩).count = 3 ∧
    replacedMessage 3 = str "Replaced 3 occurrences" := by decide

theorem alookup_aupdate_ne {α : Type} (l : List (List Char × α))
    {k k' : List Char} (v : α) (h : k' ≠ k) :
    alookup (aupdate l k v) k' = alookup l k' := by
  induction l with
  | nil => rfl
  | cons e rest ih =>
    rcases e with ⟨ek, ev⟩
    by_cases he : ek = k
    · have hkk : ¬ k = k' := fun hh => h hh.symm
      have hek : ¬ ek = k' := fun hh => h (hh ▸ he)
      simp [aupdate, he, alookup, hek, hkk]
    · simp [aupdate, he, alookup, ih]

theorem alookup_aupdate_self {α : Type} :
    ∀ (l : List (List Char × α)) (k : List Char) (v : α),
      (alookup l k).isSome → alookup (aupdate l k v) k = some v := by
  intro l
  induction l with
  | nil => intro k v h; simp [alookup] at h
  | cons e rest ih =>
    intro k v h
    rcases e with ⟨ek, ev⟩
    by_cases he : ek = k
    · simp [aupdate, he, alookup]
    · simp only [alookup, if_neg he] at h
      simp [aupdate, he, alookup, ih k v h]

theorem aupdate_of_none {α : Type} :
    ∀ (l : List (List Char × α)) (k : List Char) (v : α),
      alookup l k = none → aupdate l k v = l := by
  intro l
  induction l with
  | nil => intro k v _; rfl
  | cons e rest ih =>
    intro k v h
    rcases e with ⟨ek, ev⟩
    by_cases he : ek = k
    · simp [alookup, he] at h
    · simp only [alookup, if_neg he] at h
      simp [aupdate, he, ih k v h]

theorem alookup_aupdate_isSome {α : Type} (l : List (List Char × α))
    (k fp : List Char) (v : α) :
    (alookup (aupdate l k v) fp).isSome = (alookup l fp).isSome := by
  by_cases h : fp = k
  · subst h
    by_cases hs : (alookup l fp).isSome
    · rw [alookup_aupdate_self l fp v hs]
      simp [hs]
    · rw [aupdate_of_none l fp v (by simpa using hs)]
  · rw [alookup_aupdate_ne l v h]

/-- A processing step never changes which paths are processable: editor
updates keep the editor open, disk writes keep the entry good, failures
leave everything untouched. -/
theorem processable_performOne (cs : Bool) (s rep : List Char)
    (st : RState) (e : List Char × List SearchResult) (fp : List Char) :
    processable (performOne cs s rep st e) fp = processable st fp := by
  rcases e with ⟨p, rs⟩
  cases hE : alookup st.editors p with
  | some t =>
    simp only [performOne, hE, processable]
    rw [alookup_aupdate_isSome]
  | none =>
    cases hD : alookup st.disk p with
    | none => simp [performOne, hE, hD]
    | some d =>
      cases d with
      | bad => simp [performOne, hE, hD]
      | good t =>
        simp only [performOne, hE, hD, processable]
        by_cases h : fp = p
        · subst h
          rw [alookup_aupdate_self st.disk fp _ (by simp [hD]), hD]
        · rw [alookup_aupdate_ne st.disk _ h]

theorem count_performOne (cs : Bool) (s rep : List Char) (st : RState)
    (e : List Char × List SearchResult) :
    (performOne cs s rep st e).count =
      st.count + (if processable st e.1 then e.2.length else 0) := by
  rcases e with ⟨p, rs⟩
  cases hE : alookup st.editors p with
  | some t => simp [performOne, hE, processable]
  | none =>
    cases hD : alookup st.disk p with
    | none => simp [performOne, hE, hD, processable]
    | some d =>
      cases d with
      | bad => simp [performOne, hE, hD, processable]
      | good t => simp [performOne, hE, hD, processable]

theorem countedResults_congr {st1 st2 : RState}
    (h : ∀ fp, processable st1 fp = processable st2 fp)
    (files : List (List Char × List SearchResult)) :
    countedResults st1 files = countedResults st2 files := by
  unfold countedResults
  simp only [h]

/-- C1 (amended): the count `_perform_replacements` returns (and the
dialog reports) is the total number of selected results over the
processable files of the mapping — every selected result of a file that is
open in an editor or good on disk is counted, whether or not its
occurrence was actually rewritten. -/
theorem C1_count_is_selected_total (cs : Bool) (s rep : List Char) :
    ∀ (files : List (List Char × List SearchResult)) (st : RState),
      (perform_replacements cs s rep files st).count =
        st.count + countedResults st files := by
  intro files
  induction files with
  | nil => intro st; simp [perform_replacements, countedResults]
  | cons e fs ih =>
    intro st
    show (perform_replacements cs s rep fs (performOne cs s rep st e)).count = _
    rw [ih (performOne cs s rep st e), count_performOne,
      countedResults_congr (processable_performOne cs s rep st e) fs]
    have hcons : countedResults st (e :: fs) =
        (if processable st e.1 then e.2.length else 0) + countedResults st fs := by
      simp [countedResults]
    omega

/-- C1 (counterexample): two selected results on one line of an open
editor, search `"ab"`, replacement `"x"` on text `"abab"`.  The reported
count is 2, but the editor ends at `"xab"`: the first occurrence was
rewritten, while the second selected occurrence survives (now at offset
1), so only 1 occurrence was actually replaced. -/
theorem C1_counterexample :
    (perform_replacements true (str "ab") (str "x")
      [(str "f", [⟨str "f", 1, str "abab", 0, 2⟩,
        ⟨str "f", 1, str "abab", 2, 4⟩])]
      ⟨[(str "f", str "abab")], [], 0⟩).count = 2 ∧
    alookup (perform_replacements true (str "ab") (str "x")
      [(str "f", [⟨str "f", 1, str "abab", 0, 2⟩,
        ⟨str "f", 1, str "abab", 2, 4⟩])]
      ⟨[(str "f", str "abab")], [], 0⟩).editors (str "f") =
      some (str "xab") ∧
    occursAt (str "xab") (str "ab") 1 = true := by decide

theorem editors_none_performOne (cs : Bool) (s rep : List Char)
    (st : RState) (e : List Char × List SearchResult) {fp : List Char}
    (h : alookup st.editors fp = none) :
    alookup (performOne cs s rep st e).editors fp = none := by
  rcases e with ⟨p, rs⟩
  cases hE : alookup st.editors p with
  | some t =>
    have hne : fp ≠ p := fun hh => by rw [hh, hE] at h; exact Option.noConfusion h
    simp only [performOne, hE]
    rw [alookup_aupdate_ne st.editors _ hne]
    exact h
  | none =>
    cases hD : alookup st.disk p with
    | none => simpa [performOne, hE, hD] using h
    | some d =>
      cases d with
      | bad => simpa [performOne, hE, hD] using h
      | good t => simpa [performOne, hE, hD] using h

theorem disk_bad_performOne (cs : Bool) (s rep : List Char)
    (st : RState) (e : List Char × List SearchResult) {fp : List Char}
    (h : alookup st.disk fp = some DiskEntry.bad) :
    alookup (performOne cs s rep st e).disk fp = some DiskEntry.bad := by
  rcases e with ⟨p, rs⟩
  cases hE : alookup st.editors p with
  | some t => simpa [performOne, hE] using h
  | none =>
    cases hD : alookup st.disk p with
    | none => simpa [performOne, hE, hD] using h
    | some d =>
      cases d with
      | bad => simpa [performOne, hE, hD] using h
      | good t =>
        have hne : fp ≠ p := fun hh => by
          rw [hh, hD] at h; exact DiskEntry.noConfusion (Option.some.inj h)
        simp only [performOne, hE, hD]
        rw [alookup_aupdate_ne st.disk _ hne]
        exact h

theorem editors_none_perform (cs : Bool) (s rep : List Char) :
    ∀ (l : List (List Char × List SearchResult)) (st : RState)
      {fp : List Char}, alookup st.editors fp = none →
      alookup (perform_replacements cs s rep l st).editors fp = none := by
  intro l
  induction l with
  | nil => intro st fp h; exact h
  | cons e fs ih =>
    intro st fp h
    exact ih (performOne cs s rep st e) (editors_none_performOne cs s rep st e h)

theorem disk_bad_perform (cs : Bool) (s rep : List Char) :
    ∀ (l : List (List Char × List SearchResult)) (st : RState)
      {fp : List Char}, alookup st.disk fp = some DiskEntry.bad →
      alookup (perform_replacements cs s rep l st).disk fp = some DiskEntry.bad := by
  intro l
  induction l with
  | nil => intro st fp h; exact h
  | cons e fs ih =>
    intro st fp h
    exact ih (performOne cs s rep st e) (disk_bad_performOne cs s rep st e h)

theorem performOne_skip (cs : Bool) (s rep : List Char) (st : RState)
    (p : List Char) (rs : List SearchResult)
    (h1 : alookup st.editors p = none)
    (h2 : alookup st.disk p = some DiskEntry.bad) :
    performOne cs s rep st (p, rs) = st := by
  simp [performOne, h1, h2]

/-- C9: a target file whose read or write raises an I/O error (and which
is not open in an editor) is reported and skipped, and the batch continues
exactly as if that file were absent from the mapping: every other file
still receives its replacements, nothing aborts. -/
theorem C9_io_failure_continues (cs : Bool) (s rep : List Char)
    (l1 l2 : List (List Char × List SearchResult)) (p : List Char)
    (rs : List SearchResult) (st : RState)
    (h1 : alookup st.editors p = none)
    (h2 : alookup st.disk p = some DiskEntry.bad) :
    perform_replacements cs s rep (l1 ++ (p, rs) :: l2) st =
      perform_replacements cs s rep (l1 ++ l2) st := by
  show List.foldl (performOne cs s rep) st (l1 ++ (p, rs) :: l2) =
    List.foldl (performOne cs s rep) st (l1 ++ l2)
  rw [List.foldl_append, List.foldl_append, List.foldl_cons]
  congr 1
  exact performOne_skip cs s rep _ p rs
    (editors_none_perform cs s rep l1 st h1)
    (disk_bad_perform cs s rep l1 st h2)

/-- Witness for C9 at a concrete state: file `"a"` is bad on disk, the
mapping still processes file `"b"` around it. -/
theorem C9_witness :
    alookup (RState.mk [] [(str "a", DiskEntry.bad),
      (str "b", DiskEntry.good (str "ab"))] 0).editors (str "a") = none ∧
    perform_replacements true (str "ab") (str "x")
      ([] ++ (str "a", []) :: [(str "b", [⟨str "b", 1, str "ab", 0, 2⟩])])
      ⟨[], [(str "a", DiskEntry.bad), (str "b", DiskEntry.good (str "ab"))], 0⟩ =
      perform_replacements true (str "ab") (str "x")
        ([] ++ [(str "b", [⟨str "b", 1, str "ab", 0, 2⟩])])
        ⟨[], [(str "a", DiskEntry.bad), (str "b", DiskEntry.good (str "ab"))], 0⟩ := by
  refine ⟨by decide, ?_⟩
  exact C9_io_failure_continues true (str "ab") (str "x") []
    [(str "b", [⟨str "b", 1, str "ab", 0, 2⟩])] (str "a") []
    ⟨[], [(str "a", DiskEntry.bad), (str "b", DiskEntry.good (str "ab"))], 0⟩
    (by decide) (by decide)

/-- A result targeting a different (1-based) line number leaves entry `i`
of the line list untouched. -/
theorem replaceOne_getElem?_ne (cs : Bool) (s rep : List Char)
    (lines : List (List Char)) (r : SearchResult) (i : Nat)
    (h : r.line_number ≠ i + 1) :
    (replaceOne cs s rep lines r)[i]? = lines[i]? := by
  by_cases hcond : 0 < r.line_number ∧ r.line_number - 1 < lines.length ∧
      r.match_start ≤ (scanOf cs (lines.getD (r.line_number - 1) [])).length ∧
      occursAt (scanOf cs (lines.getD (r.line_number - 1) []))
        (termOf cs s) r.match_start = true
  · rw [replaceOne_act cs s rep lines r hcond]
    exact List.getElem?_set_ne (by omega)
  · rw [replaceOne_skip cs s rep lines r hcond]

theorem foldl_replace_getElem?_ne (cs : Bool) (s rep : List Char) (i : Nat) :
    ∀ (rs : List SearchResult) (lines : List (List Char)),
      (∀ r ∈ rs, r.line_number ≠ i + 1) →
      (rs.foldl (replaceOne cs s rep) lines)[i]? = lines[i]? := by
  intro rs
  induction rs with
  | nil => intro lines _; rfl
  | cons r rest ih =>
    intro lines h
    rw [List.foldl_cons,
      ih (replaceOne cs s rep lines r)
        (fun x hx => h x (List.mem_cons_of_mem _ hx)),
      replaceOne_getElem?_ne cs s rep lines r i (h r (List.mem_cons_self _ _))]

/-- The loop body keeps every line newline-free when the replacement
string is newline-free. -/
theorem replaceOne_no_newline (cs : Bool) (s rep : List Char)
    (lines : List (List Char)) (r : SearchResult)
    (hl : ∀ l ∈ lines, '\n' ∉ l) (hrep : '\n' ∉ rep) :
    ∀ l ∈ replaceOne cs s rep lines r, '\n' ∉ l := by
  by_cases hcond : 0 < r.line_number ∧ r.line_number - 1 < lines.length ∧
      r.match_start ≤ (scanOf cs (lines.getD (r.line_number - 1) [])).length ∧
      occursAt (scanOf cs (lines.getD (r.line_number - 1) []))
        (termOf cs s) r.match_start = true
  · rw [replaceOne_act cs s rep lines r hcond]
    intro l hmem
    rcases List.mem_or_eq_of_mem_set hmem with h1 | h1
    · exact hl l h1
    · subst h1
      have hidx : r.line_number - 1 < lines.length := hcond.2.1
      have hline : '\n' ∉ lines.getD (r.line_number - 1) [] := by
        have hm : lines.getD (r.line_number - 1) [] ∈ lines := by
          rw [List.getD_eq_getElem?_getD, List.getElem?_eq_getElem hidx]
          exact List.getElem_mem hidx
        exact hl _ hm
      intro hmem2
      rcases List.mem_append.mp hmem2 with h2 | h2
      · rcases List.mem_append.mp h2 with h3 | h3
        · exact hline (List.take_subset _ _ h3)
        · exact hrep h3
      · exact hline (List.drop_subset _ _ h2)
  · rw [replaceOne_skip cs s rep lines r hcond]
    exact hl

theorem foldl_replace_no_newline (cs : Bool) (s rep : List Char)
    (hrep : '\n' ∉ rep) :
    ∀ (rs : List SearchResult) (lines : List (List Char)),
      (∀ l ∈ lines, '\n' ∉ l) →
      ∀ l ∈ rs.foldl (replaceOne cs s rep) lines, '\n' ∉ l := by
  intro rs
  induction rs with
  | nil => intro lines h; exact h
  | cons r rest ih =>
    intro lines h
    exact ih (replaceOne cs s rep lines r)
      (replaceOne_no_newline cs s rep lines r h hrep)

theorem replaceOne_length (cs : Bool) (s rep : List Char)
    (lines : List (List Char)) (r : SearchResult) :
    (replaceOne cs s rep lines r).length = lines.length := by
  by_cases hcond : 0 < r.line_number ∧ r.line_number - 1 < lines.length ∧
      r.match_start ≤ (scanOf cs (lines.getD (r.line_number - 1) [])).length ∧
      occursAt (scanOf cs (lines.getD (r.line_number - 1) []))
        (termOf cs s) r.match_start = true
  · rw [replaceOne_act cs s rep lines r hcond]
    exact List.length_set lines _ _
  · rw [replaceOne_skip cs s rep lines r hcond]

theorem foldl_replace_length (cs : Bool) (s rep : List Char) :
    ∀ (rs : List SearchResult) (lines : List (List Char)),
      (rs.foldl (replaceOne cs s rep) lines).length = lines.length := by
  intro rs
  induction rs with
  | nil => intro lines; rfl
  | cons r rest ih =>
    intro lines
    rw [List.foldl_cons, ih (replaceOne cs s rep lines r),
      replaceOne_length cs s rep lines r]

/-- C10 (counterexample): with a replacement string containing a newline,
re-splitting the rewritten text shifts the untargeted lines.  The only
selected result targets line 1, yet line 2 of the output differs from
line 2 of the input. -/
theorem C10_counterexample :
    (∀ r ∈ [SearchResult.mk (str "f") 1 (str "a") 0 1], r.line_number ≠ 2) ∧
    (splitNL (replace_in_text true (str "a\nb")
      [⟨str "f", 1, str "a", 0, 1⟩] (str "a") (str "x\ny"))).getD 1 [] ≠
      (splitNL (str "a\nb")).getD 1 [] := by decide

/-- C10 (amended): when the replacement string contains no newline, every
line whose 1-based number is not the `line_number` of any selected result
is identical between the input's line array and the output's: replacement
never alters untargeted lines. -/
theorem C10_untargeted_lines_unchanged (cs : Bool) (text : List Char)
    (rs : List SearchResult) (s rep : List Char) (i : Nat)
    (hrep : '\n' ∉ rep) (hi : ∀ r ∈ rs, r.line_number ≠ i + 1) :
    (splitNL (replace_in_text cs text rs s rep)).getD i [] =
      (splitNL text).getD i [] := by
  unfold replace_in_text
  have hperm := List.perm_insertionSort resLE rs
  have hi' : ∀ r ∈ sortResults rs, r.line_number ≠ i + 1 :=
    fun r hr => hi r (hperm.mem_iff.mp hr)
  have hnl : ∀ l ∈ (sortResults rs).foldl (replaceOne cs s rep) (splitNL text),
      '\n' ∉ l :=
    foldl_replace_no_newline cs s rep hrep (sortResults rs) (splitNL text)
      (splitNL_no_newline text)
  have hlen : ((sortResults rs).foldl (replaceOne cs s rep)
      (splitNL text)).length = (splitNL text).length :=
    foldl_replace_length cs s rep (sortResults rs) (splitNL text)
  have hne : (sortResults rs).foldl (replaceOne cs s rep) (splitNL text) ≠ [] := by
    intro hh
    rw [hh] at hlen
    exact splitNL_ne_nil text (List.length_eq_zero.mp hlen.symm)
  rw [splitNL_joinNL _ hne hnl, List.getD_eq_getElem?_getD,
    List.getD_eq_getElem?_getD,
    foldl_replace_getElem?_ne cs s rep i (sortResults rs) (splitNL text) hi']

/-- Witness for C10 at a concrete input: a newline-free replacement on
line 1 leaves line 2 unchanged. -/
theorem C10_witness :
    (splitNL (replace_in_text true (str "a\nb")
      [⟨str "f", 1, str "a", 0, 1⟩] (str "a") (str "x"))).getD 1 [] =
      (splitNL (str "a\nb")).getD 1 [] :=
  C10_untargeted_lines_unchanged true (str "a\nb")
    [⟨str "f", 1, str "a", 0, 1⟩] (str "a") (str "x") 1
    (by decide) (by decide)

/-- C8 (counterexample): `find_all` with a nonempty search term but no
files to search does report "No files to search" and produces no results
and touches no text, but it does NOT leave previously held result state
unchanged: the dialog clears its results before checking the file set. -/
theorem C8_counterexample :
    (find_all false false (str "x") []
      ⟨[⟨str "f", 1, str "x", 0, 1⟩],
        [(str "f", [⟨str "f", 1, str "x", 0, 1⟩])], str "Ready"⟩).status =
      str "No files to search" ∧
    (find_all false false (str "x") []
      ⟨[⟨str "f", 1, str "x", 0, 1⟩],
        [(str "f", [⟨str "f", 1, str "x", 0, 1⟩])], str "Ready"⟩).results ≠
      [⟨str "f", 1, str "x", 0, 1⟩] := by decide

/-- C8 (amended): an empty search term aborts with only the status
message changed — results, file mapping and all texts untouched; a
nonempty term with no files to search reports "No files to search" and
produces no results and modifies no text, but leaves the result state
cleared rather than unchanged. -/
theorem C8_user_input_errors :
    (∀ (cs ww : Bool) (files : List (List Char × List Char)) (st : FindState),
      find_all cs ww [] files st =
        { st with status := str "Please enter search text" }) ∧
    (∀ (cs ww : Bool) (s : List Char) (st : FindState), s ≠ [] →
      find_all cs ww s [] st = ⟨[], [], str "No files to search"⟩) := by
  constructor
  · intro cs ww files st
    simp [find_all]
  · intro cs ww s st hs
    simp [find_all, hs]

/-- Witness for C8 at a concrete state. -/
theorem C8_witness :
    str "x" ≠ ([] : List Char) ∧
    find_all false false (str "x") [] ⟨[], [], str "Ready"⟩ =
      ⟨[], [], str "No files to search"⟩ :=
  ⟨by decide,
    C8_user_input_errors.2 false false (str "x") ⟨[], [], str "Ready"⟩
      (by decide)⟩

end MultiFileFind

namespace SplitSync

/-- C7: when an editor belonging to a sync group of size at least two
commits a content-changing edit, the full new text is pushed into every
other member of the group and, immediately after the edit, every member of
the group (the source included) holds exactly that text; the replay never
writes back into the source editor itself (second conjunct). -/
theorem C7_sync_propagation (reg : SyncRegistry) (path : List Char)
    (source : Nat) (t : List Char)
    (hmem : source ∈ reg.groups path)
    (hsize : 2 ≤ (reg.groups path).length) :
    (∀ e ∈ reg.groups path, (commit_edit reg path source t).texts e = t) ∧
    (∀ reg2 : SyncRegistry,
      (replay_edit reg2 path source).texts source = reg2.texts source) := by
  constructor
  · intro e he
    show (replay_edit (setText reg source t) path source).texts e = t
    unfold replay_edit setText
    rw [if_neg (by simpa using (by omega : ¬ (reg.groups path).length < 2))]
    by_cases hes : e = source
    · subst hes
      simp
    · simp [he, hes]
  · intro reg2
    unfold replay_edit
    by_cases hg : (reg2.groups path).length < 2
    · rw [if_pos hg]
    · rw [if_neg hg]
      simp

/-- Witness for C7: two panes showing the same file; after one pane's
edit, both hold the new text. -/
theorem C7_witness :
    (commit_edit ⟨fun _ => [0, 1], fun _ => MultiFileFind.str "old"⟩
      (MultiFileFind.str "f") 0 (MultiFileFind.str "new")).texts 1 =
      MultiFileFind.str "new" ∧
    (commit_edit ⟨fun _ => [0, 1], fun _ => MultiFileFind.str "old"⟩
      (MultiFileFind.str "f") 0 (MultiFileFind.str "new")).texts 0 =
      MultiFileFind.str "new" := by
  have h := C7_sync_propagation
    ⟨fun _ => [0, 1], fun _ => MultiFileFind.str "old"⟩
    (MultiFileFind.str "f") 0 (MultiFileFind.str "new")
    (by simp) (by simp)
  exact ⟨h.1 1 (by simp), h.1 0 (by simp)⟩

end SplitSync
